import Mathlib

/-!
# olsr-hna.cc : traffic generator, delivery sink and throughput

Shallow embedding of `src/olsr-hna.cc`.

* The two global counters `packetsSent` and `packetsReceived` are `uint32_t`;
  they are natural numbers here and every `++` is taken modulo `2 ^ 32`.
* Simulated time (`Time` in the source) is the simulator's integer clock, a
  natural number of nanoseconds.
* `Simulator::Schedule`, `Simulator::Run`, `Simulator::Stop`, `Socket::Send`
  and `Socket::Close` belong to the simulation library, not to this
  repository.  They are modelled the way section 4.1 of the specification
  describes them, and every call the generator makes to them is recorded in
  `World.trace`.
* `CalculateThroughput` is double arithmetic on top of one 32-bit unsigned
  product.  The model is the exact rational value of the expression: the
  numerator `(packetsReceived * 967 mod 2 ^ 32) * 8` is an integer below
  `2 ^ 35` and the divisor is `2000000`, both exact doubles, so the double the
  program prints is the correctly rounded value of this rational, and two
  different numerators never round to the same double.
-/

namespace OlsrHna

/-! ## Data model -/

/-- The value of `Seconds(s)` for a whole number of seconds: simulated time is
a natural number of nanoseconds. -/
def Seconds (s : Nat) : Nat := s * 1000000000

/-- Number of values of a `uint32_t`, that is `2 ^ 32`. -/
def UINT32_MOD : Nat := 4294967296

/-- A pending simulator event: the deferred call
`GenerateTraffic(socket, pktSize, pktCount, pktInterval)` due at `time`. -/
structure Event where
  time : Nat
  pktSize : Nat
  pktCount : Nat
  pktInterval : Nat
deriving DecidableEq, Repr

/-- What can be observed of the generator chain, in the order it happens. -/
inductive Obs where
  /-- The simulator invokes `GenerateTraffic` with remaining count `pktCount`. -/
  | fire (t : Nat) (pktCount : Nat)
  /-- A call `socket->Send(Create<Packet>(pktSize))`. -/
  | send (t : Nat) (pktSize : Nat)
  /-- A call `Simulator::Schedule` made by the generator at time `t`. -/
  | schedule (t : Nat) (fireTime : Nat) (pktCount : Nat)
  /-- A call `socket->Close()`. -/
  | close (t : Nat)
deriving DecidableEq, Repr

/-- The state of the program: simulator clock and queue, the two global
counters, the packets handed to the network and not yet delivered, and the
record of what the generator did. -/
structure World where
  now : Nat
  queue : List Event
  packetsSent : Nat
  packetsReceived : Nat
  inFlight : Nat
  trace : List Obs
deriving DecidableEq, Repr

/-- The command-line parameters the modelled code reads. -/
structure Config where
  packetSize : Nat
  numPackets : Nat
  interval : Nat
deriving DecidableEq, Repr

/-- The defaults of `main`: 967 bytes, 2 packets, 2.0 s. -/
def defaultConfig : Config := ⟨967, 2, Seconds 2⟩

/-- The state at process start: both counters are 0 (source lines 20-21). -/
def start : World := ⟨0, [], 0, 0, 0, []⟩

/-! ## The simulation library, as far as the program uses it -/

/-- Modelled from the spec: the event queue is ordered by fire time and, among
equal fire times, by enqueue order; a new event goes behind every pending
event that is due no later. -/
def insertEvent (e : Event) : List Event → List Event
  | [] => [e]
  | x :: rest => if x.time ≤ e.time then x :: insertEvent e rest else e :: x :: rest

/-- Modelled from the spec: `ScheduleWithContext(context, delay, callback)`
enqueues the callback at current time plus `delay`. -/
def ScheduleWithContext (delay pktSize pktCount pktInterval : Nat)
    (w : World) : World :=
  { w with queue := insertEvent ⟨w.now + delay, pktSize, pktCount, pktInterval⟩ w.queue }

/-- Modelled from the spec: `Schedule(delay, callback)` called from inside a
callback; the call is recorded in the trace. -/
def Schedule (delay pktSize pktCount pktInterval : Nat)
    (w : World) : World :=
  { w with
    queue := insertEvent ⟨w.now + delay, pktSize, pktCount, pktInterval⟩ w.queue
    trace := w.trace ++ [Obs.schedule w.now (w.now + delay) pktCount] }

/-- Modelled from the spec: `Send` is fire-and-forget; the packet is now with
the network. -/
def Send (pktSize : Nat) (w : World) : World :=
  { w with inFlight := w.inFlight + 1, trace := w.trace ++ [Obs.send w.now pktSize] }

/-- Modelled from the spec: `Close` ends the socket's life. -/
def Close (w : World) : World :=
  { w with trace := w.trace ++ [Obs.close w.now] }

/-! ## The code of `olsr-hna.cc` -/

/-- `ReceivePacket` (lines 25-29): `packetsReceived++` on a `uint32_t`. -/
def ReceivePacket (w : World) : World :=
  { w with packetsReceived := (w.packetsReceived + 1) % UINT32_MOD }

/-- `GenerateTraffic` (lines 32-49). -/
def GenerateTraffic (pktSize pktCount pktInterval : Nat) (w : World) : World :=
  if pktCount > 0 then
    let w1 := Send pktSize w
    let w2 := { w1 with packetsSent := (w1.packetsSent + 1) % UINT32_MOD }
    Schedule pktInterval pktSize (pktCount - 1) pktInterval w2
  else
    Close w

/-- `CalculateThroughput` (lines 52-56): the value stored in `totalThroughput`.
`packetsReceived * 967` is a 32-bit unsigned product; the rest is double
arithmetic, given here by its exact value. -/
def CalculateThroughput (w : World) : ℚ :=
  (((w.packetsReceived * 967 % UINT32_MOD : ℕ) : ℚ) * 8) / (2 * 1000000)

/-! ## The event loop -/

/-- The simulator takes the first pending event, moves the clock to its fire
time and invokes it. -/
def fireNext (w : World) : World :=
  match w.queue with
  | [] => w
  | e :: rest =>
    GenerateTraffic e.pktSize e.pktCount e.pktInterval
      { w with now := e.time, queue := rest, trace := w.trace ++ [Obs.fire e.time e.pktCount] }

/-- Modelled from the spec: `Run` ends when the queue is empty or the next
event is due after the stop time (`none`: no stop time). -/
def stopReached (stop : Option Nat) (w : World) : Bool :=
  match w.queue, stop with
  | [], _ => true
  | e :: _, some s => decide (s < e.time)
  | _ :: _, none => false

/-- At most `fuel` iterations of the event loop. -/
def runLoop : Nat → Option Nat → World → World
  | 0, _, w => w
  | fuel + 1, stop, w => if stopReached stop w then w else runLoop fuel stop (fireNext w)

/-- The number of invocations the pending events can still cause: an event
with remaining count `c` stands for `c + 1` invocations. -/
def pendingWork : List Event → Nat
  | [] => 0
  | e :: rest => e.pktCount + 1 + pendingWork rest

/-- Modelled from the spec: `Simulator::Run`, the loop run until it ends. -/
def Run (stop : Option Nat) (w : World) : World :=
  runLoop (pendingWork w.queue) stop w

/-- One delivery by the network: a packet that was sent and not yet delivered
reaches the sink, which invokes the receive callback once. -/
def Deliver (w : World) : World :=
  if 0 < w.inFlight then ReceivePacket { w with inFlight := w.inFlight - 1 } else w

/-- The state in which `main` calls `Simulator::Run`: the first generator event
is due at 15.0 s (lines 156-162). -/
def boot (cfg : Config) : World :=
  ScheduleWithContext (Seconds 15) cfg.packetSize cfg.numPackets cfg.interval start

/-- The state when `Simulator::Run` returns in `main`, which stops at 20.0 s
(lines 165-166).  `delivered` is the number of deliveries the network attempted
during the run; the receive callback touches only `packetsReceived`, which no
generator event reads, so the deliveries are applied behind the generator's
events. -/
def mainWorld (cfg : Config) (delivered : Nat) : World :=
  Deliver^[delivered] (Run (some (Seconds 20)) (boot cfg))

/-- The throughput `main` reports (line 169). -/
def main (cfg : Config) (delivered : Nat) : ℚ :=
  CalculateThroughput (mainWorld cfg delivered)

/-! ## The interleaving of generator and network, for the counter invariant -/

/-- A step of the system: the next generator event fires, or the network
delivers one packet. -/
inductive Action where
  | generate
  | deliver
deriving DecidableEq, Repr

/-- One step. -/
def step (w : World) : Action → World
  | Action.generate => fireNext w
  | Action.deliver => Deliver w

/-- A sequence of steps. -/
def exec (w : World) (acts : List Action) : World :=
  acts.foldl step w

/-! ## Reading a trace -/

/-- The times and sizes of the sends, in order. -/
def sends : List Obs → List (Nat × Nat)
  | [] => []
  | Obs.send t s :: rest => (t, s) :: sends rest
  | _ :: rest => sends rest

/-- The times of the calls to `Close`, in order. -/
def closes : List Obs → List Nat
  | [] => []
  | Obs.close t :: rest => t :: closes rest
  | _ :: rest => closes rest

/-- The remaining counts seen by the invocations, in order. -/
def invocations : List Obs → List Nat
  | [] => []
  | Obs.fire _ c :: rest => c :: invocations rest
  | _ :: rest => invocations rest

/-- The events the generator enqueued: fire time and remaining count. -/
def scheduled : List Obs → List (Nat × Nat)
  | [] => []
  | Obs.schedule _ ft c :: rest => (ft, c) :: scheduled rest
  | _ :: rest => scheduled rest

/-- The throughput formula in the words of the specification:
`(packets_received * packet_size_bytes * 8) / (observation_window_seconds * 1_000_000)`. -/
def specThroughput (packetsReceived packetSizeBytes : Nat) (windowSeconds : ℚ) : ℚ :=
  ((packetsReceived : ℚ) * (packetSizeBytes : ℚ) * 8) / (windowSeconds * 1000000)

/-- The trace of a whole generator chain that starts at `t` with count `n`. -/
def chainTrace (size : Nat) (i : Nat) : Nat → Nat → List Obs
  | 0, t => [Obs.fire t 0, Obs.close t]
  | n + 1, t =>
    Obs.fire t (n + 1) :: Obs.send t size :: Obs.schedule t (t + i) n :: chainTrace size i n (t + i)

/-! ## Auxiliary definitions for the proofs -/

/-- Every received packet was sent: the packets received and those still with
the network add up to the packets sent, the sends so far stay within `bound`,
and together with the invocations still pending within `bound + 1`. -/
def CountersInv (bound : Nat) (w : World) : Prop :=
  w.packetsReceived + w.inFlight = w.packetsSent ∧
  w.packetsSent + pendingWork w.queue ≤ bound + 1 ∧
  w.packetsSent ≤ bound

/-- The same event with another packet size. -/
def Event.withSize (p : Nat) (e : Event) : Event := { e with pktSize := p }

/-- The same observation with another packet size. -/
def Obs.withSize (p : Nat) : Obs → Obs
  | Obs.send t _ => Obs.send t p
  | o => o

/-- The same state with another packet size in every pending event and every
recorded send. -/
def World.withSize (p : Nat) (w : World) : World :=
  { w with queue := w.queue.map (Event.withSize p), trace := w.trace.map (Obs.withSize p) }

/-! ## Lemmas on the event loop -/

theorem runLoop_of_stopReached (stop : Option Nat) (w : World) (h : stopReached stop w = true) :
    ∀ fuel, runLoop fuel stop w = w := by
  intro fuel
  cases fuel with
  | zero => rfl
  | succ f => simp [runLoop, h]

theorem pendingWork_insertEvent (e : Event) (q : List Event) :
    pendingWork (insertEvent e q) = e.pktCount + 1 + pendingWork q := by
  induction q with
  | nil => simp [insertEvent, pendingWork]
  | cons x rest ih =>
    unfold insertEvent
    split
    · simp only [pendingWork, ih]; omega
    · simp only [pendingWork]

theorem pendingWork_fireNext (w : World) (e : Event) (rest : List Event)
    (hq : w.queue = e :: rest) :
    pendingWork (fireNext w).queue + 1 = pendingWork w.queue := by
  unfold fireNext
  rw [hq]
  simp only [GenerateTraffic, Schedule, Send, Close]
  split
  · next hpos =>
    simp only [pendingWork_insertEvent, pendingWork]
    omega
  · next hzero =>
    simp only [pendingWork]
    omega

/-- With fuel for every pending invocation the loop ends by itself: the queue
is empty or the next event is due after the stop time. -/
theorem runLoop_halts (stop : Option Nat) :
    ∀ (fuel : Nat) (w : World), pendingWork w.queue ≤ fuel →
      stopReached stop (runLoop fuel stop w) = true := by
  intro fuel
  induction fuel with
  | zero =>
    intro w h
    cases hq : w.queue with
    | nil => simp [runLoop, stopReached, hq]
    | cons e rest => rw [hq] at h; simp [pendingWork] at h
  | succ f ih =>
    intro w h
    unfold runLoop
    split
    · next hs => exact hs
    · next hs =>
      cases hq : w.queue with
      | nil => simp [stopReached, hq] at hs
      | cons e rest =>
        apply ih
        have := pendingWork_fireNext w e rest hq
        omega

theorem Run_halts (stop : Option Nat) (w : World) :
    stopReached stop (Run stop w) = true :=
  runLoop_halts stop _ w (Nat.le_refl _)

/-- More fuel than the pending invocations changes nothing. -/
theorem runLoop_eq_Run (stop : Option Nat) :
    ∀ (fuel : Nat) (w : World), pendingWork w.queue ≤ fuel →
      runLoop fuel stop w = Run stop w := by
  intro fuel
  induction fuel with
  | zero =>
    intro w h
    have h0 : pendingWork w.queue = 0 := by omega
    simp [Run, h0]
  | succ f ih =>
    intro w h
    by_cases hs : stopReached stop w = true
    · rw [runLoop_of_stopReached stop w hs, Run, runLoop_of_stopReached stop w hs]
    · cases hq : w.queue with
      | nil => simp [stopReached, hq] at hs
      | cons e rest =>
        have hdec := pendingWork_fireNext w e rest hq
        have h1 : runLoop (f + 1) stop w = runLoop f stop (fireNext w) := by
          simp [runLoop, hs]
        have h2 : Run stop w = runLoop (pendingWork (fireNext w).queue) stop (fireNext w) := by
          unfold Run
          rw [← hdec]
          simp [runLoop, hs]
        rw [h1, h2, ih (fireNext w) (by omega), Run]

/-- The whole chain: a world whose only pending event is the generator with
count `n` at time `t` runs through `n` sends and one close, provided the stop
time (if any) is not before the last invocation. -/
theorem runLoop_chain (size : Nat) (i : Nat) (stop : Option Nat) :
    ∀ (n fuel : Nat) (t : Nat) (w : World), n + 1 ≤ fuel →
      w.queue = [⟨t, size, n, i⟩] → (∀ s, stop = some s → t + n * i ≤ s) →
      (runLoop fuel stop w).now = t + n * i ∧
      (runLoop fuel stop w).queue = [] ∧
      (runLoop fuel stop w).packetsReceived = w.packetsReceived ∧
      (runLoop fuel stop w).inFlight = w.inFlight + n ∧
      (runLoop fuel stop w).trace = w.trace ++ chainTrace size i n t ∧
      (w.packetsSent + n < UINT32_MOD →
        (runLoop fuel stop w).packetsSent = w.packetsSent + n) := by
  intro n
  induction n with
  | zero =>
    intro fuel t w hf hq hs
    obtain ⟨f, rfl⟩ : ∃ f, fuel = f + 1 := ⟨fuel - 1, by omega⟩
    have hnot : stopReached stop w = false := by
      cases stop with
      | none => simp [stopReached, hq]
      | some s =>
        have := hs s rfl
        simp [stopReached, hq]; omega
    have hstep : runLoop (f + 1) stop w = runLoop f stop (fireNext w) := by
      simp [runLoop, hnot]
    have hfire : fireNext w =
        { w with now := t, queue := [], trace := w.trace ++ [Obs.fire t 0] ++ [Obs.close t] } := by
      simp [fireNext, hq, GenerateTraffic, Close]
    have hdone : stopReached stop (fireNext w) = true := by
      rw [hfire]; simp [stopReached]
    rw [hstep, runLoop_of_stopReached stop _ hdone, hfire]
    simp [chainTrace]
  | succ n ih =>
    intro fuel t w hf hq hs
    obtain ⟨f, rfl⟩ : ∃ f, fuel = f + 1 := ⟨fuel - 1, by omega⟩
    have hmul : t + (n + 1) * i = t + i + n * i := by rw [Nat.succ_mul]; omega
    have hnot : stopReached stop w = false := by
      cases stop with
      | none => simp [stopReached, hq]
      | some s =>
        have := hs s rfl
        have : t ≤ t + (n + 1) * i := Nat.le_add_right _ _
        simp [stopReached, hq]; omega
    have hstep : runLoop (f + 1) stop w = runLoop f stop (fireNext w) := by
      simp [runLoop, hnot]
    have hfire : fireNext w =
        { now := t, queue := [⟨t + i, size, n, i⟩],
          packetsSent := (w.packetsSent + 1) % UINT32_MOD,
          packetsReceived := w.packetsReceived, inFlight := w.inFlight + 1,
          trace := w.trace ++ [Obs.fire t (n + 1), Obs.send t size, Obs.schedule t (t + i) n] } := by
      simp [fireNext, hq, GenerateTraffic, Send, Schedule, insertEvent]
    have hrec := ih f (t + i) (fireNext w) (by omega) (by rw [hfire])
      (by intro s h; have := hs s h; omega)
    rw [hstep]
    obtain ⟨h1, h2, h3, h4, h5, h6⟩ := hrec
    refine ⟨by rw [h1]; omega, h2, by rw [h3, hfire], by rw [h4, hfire]; simp; omega,
      by rw [h5, hfire]; simp [chainTrace], ?_⟩
    intro hlt
    have hmod : (w.packetsSent + 1) % UINT32_MOD = w.packetsSent + 1 :=
      Nat.mod_eq_of_lt (by omega)
    have := h6 (by rw [hfire]; simp only; rw [hmod]; omega)
    rw [this, hfire]; simp only; rw [hmod]; omega

/-! ## Lemmas on traces -/

theorem sends_append (a b : List Obs) : sends (a ++ b) = sends a ++ sends b := by
  induction a with
  | nil => rfl
  | cons x rest ih => cases x <;> simp [sends, ih]

theorem closes_append (a b : List Obs) : closes (a ++ b) = closes a ++ closes b := by
  induction a with
  | nil => rfl
  | cons x rest ih => cases x <;> simp [closes, ih]

theorem invocations_append (a b : List Obs) :
    invocations (a ++ b) = invocations a ++ invocations b := by
  induction a with
  | nil => rfl
  | cons x rest ih => cases x <;> simp [invocations, ih]

theorem scheduled_append (a b : List Obs) :
    scheduled (a ++ b) = scheduled a ++ scheduled b := by
  induction a with
  | nil => rfl
  | cons x rest ih => cases x <;> simp [scheduled, ih]

theorem sends_chainTrace (size i : Nat) :
    ∀ (n t : Nat), sends (chainTrace size i n t) = (List.range n).map (fun k => (t + k * i, size)) := by
  intro n
  induction n with
  | zero => intro t; simp [chainTrace, sends]
  | succ n ih =>
    intro t
    rw [List.range_succ_eq_map]
    simp only [chainTrace, sends, ih, List.map_cons, List.map_map, Nat.zero_mul, Nat.add_zero]
    congr 1
    apply List.map_congr_left
    intro k _
    simp only [Function.comp, Nat.succ_eq_add_one, Nat.succ_mul]
    congr 1
    omega

theorem closes_chainTrace (size i : Nat) :
    ∀ (n t : Nat), closes (chainTrace size i n t) = [t + n * i] := by
  intro n
  induction n with
  | zero => intro t; simp [chainTrace, closes]
  | succ n ih =>
    intro t
    simp only [chainTrace, closes, ih, Nat.succ_mul]
    congr 1
    omega

theorem invocations_chainTrace (size i : Nat) :
    ∀ (n t : Nat), invocations (chainTrace size i n t) = (List.range (n + 1)).map (fun k => n - k) := by
  intro n
  induction n with
  | zero => intro t; simp [chainTrace, invocations]
  | succ n ih =>
    intro t
    rw [List.range_succ_eq_map]
    simp only [chainTrace, invocations, ih, List.map_cons, List.map_map, Nat.sub_zero]
    congr 1
    apply List.map_congr_left
    intro k _
    simp only [Function.comp, Nat.succ_eq_add_one]
    omega

theorem scheduled_chainTrace (size i : Nat) :
    ∀ (n t : Nat), scheduled (chainTrace size i n t) =
      (List.range n).map (fun k => (t + (k + 1) * i, n - 1 - k)) := by
  intro n
  induction n with
  | zero => intro t; simp [chainTrace, scheduled]
  | succ n ih =>
    intro t
    rw [List.range_succ_eq_map]
    simp only [chainTrace, scheduled, ih, List.map_cons, List.map_map, Nat.zero_add, Nat.one_mul,
      Nat.sub_zero, Nat.add_sub_cancel]
    congr 1
    apply List.map_congr_left
    intro k _
    simp only [Function.comp, Nat.succ_eq_add_one]
    have h1 : t + i + (k + 1) * i = t + (k + 1 + 1) * i := by
      rw [Nat.succ_mul (k + 1) i]; omega
    have h2 : n - 1 - k = n - (k + 1) := by omega
    rw [h1, h2]

/-- The chain's trace ends with the invocation that sees count 0 and closes;
everything before it is `n` invocations with one send each and no close. -/
theorem chainTrace_split (size i : Nat) :
    ∀ (n t : Nat), ∃ pre : List Obs,
      chainTrace size i n t = pre ++ [Obs.fire (t + n * i) 0, Obs.close (t + n * i)] ∧
      (invocations pre).length = n ∧ (sends pre).length = n ∧ closes pre = [] := by
  intro n
  induction n with
  | zero => intro t; exact ⟨[], by simp [chainTrace], rfl, rfl, rfl⟩
  | succ n ih =>
    intro t
    obtain ⟨pre, h1, h2, h3, h4⟩ := ih (t + i)
    have hmul : t + (n + 1) * i = t + i + n * i := by rw [Nat.succ_mul]; omega
    refine ⟨Obs.fire t (n + 1) :: Obs.send t size :: Obs.schedule t (t + i) n :: pre, ?_, ?_, ?_, ?_⟩
    · simp only [chainTrace, h1, hmul, List.cons_append]
    · simp [invocations, h2]
    · simp [sends, h3]
    · simp [closes, h4]

theorem boot_queue (cfg : Config) :
    (boot cfg).queue = [⟨Seconds 15, cfg.packetSize, cfg.numPackets, cfg.interval⟩] := by
  simp [boot, ScheduleWithContext, start, insertEvent]

theorem pendingWork_boot (cfg : Config) : pendingWork (boot cfg).queue = cfg.numPackets + 1 := by
  simp [boot_queue, pendingWork]

/-- The chain of `main`, run without a stop time. -/
theorem Run_boot (cfg : Config) :
    (Run none (boot cfg)).now = Seconds 15 + cfg.numPackets * cfg.interval ∧
    (Run none (boot cfg)).queue = [] ∧
    (Run none (boot cfg)).packetsReceived = 0 ∧
    (Run none (boot cfg)).inFlight = cfg.numPackets ∧
    (Run none (boot cfg)).trace =
      chainTrace cfg.packetSize cfg.interval cfg.numPackets (Seconds 15) ∧
    (cfg.numPackets < UINT32_MOD → (Run none (boot cfg)).packetsSent = cfg.numPackets) := by
  have h := runLoop_chain cfg.packetSize cfg.interval none cfg.numPackets
    (pendingWork (boot cfg).queue) (Seconds 15) (boot cfg)
    (by rw [pendingWork_boot]) (boot_queue cfg) (by intro s hs; cases hs)
  have hb : (boot cfg).packetsReceived = 0 ∧ (boot cfg).inFlight = 0 ∧ (boot cfg).trace = [] ∧
      (boot cfg).packetsSent = 0 := by
    simp [boot, ScheduleWithContext, start]
  obtain ⟨b1, b2, b3, b4⟩ := hb
  rw [b1, b2, b3, b4] at h
  simpa [Run] using h

/-! ## Stepping the loop on explicit states -/

theorem runLoop_step (stop : Option Nat) (w : World) (f : Nat) (h : stopReached stop w = false) :
    runLoop (f + 1) stop w = runLoop f stop (fireNext w) := by
  simp [runLoop, h]

theorem fireNext_pos (now : Nat) (rest : List Event) (ps pr inf : Nat) (tr : List Obs)
    (t size n i : Nat) :
    fireNext ⟨now, ⟨t, size, n + 1, i⟩ :: rest, ps, pr, inf, tr⟩ =
      ⟨t, insertEvent ⟨t + i, size, n, i⟩ rest, (ps + 1) % UINT32_MOD, pr, inf + 1,
        tr ++ [Obs.fire t (n + 1), Obs.send t size, Obs.schedule t (t + i) n]⟩ := by
  simp [fireNext, GenerateTraffic, Send, Schedule]

theorem fireNext_zero (now : Nat) (rest : List Event) (ps pr inf : Nat) (tr : List Obs)
    (t size i : Nat) :
    fireNext ⟨now, ⟨t, size, 0, i⟩ :: rest, ps, pr, inf, tr⟩ =
      ⟨t, rest, ps, pr, inf, tr ++ [Obs.fire t 0, Obs.close t]⟩ := by
  simp [fireNext, GenerateTraffic, Close]

theorem stopReached_some_cons (s now : Nat) (e : Event) (rest : List Event) (ps pr inf : Nat)
    (tr : List Obs) :
    stopReached (some s) ⟨now, e :: rest, ps, pr, inf, tr⟩ = decide (s < e.time) := rfl

theorem stopReached_none_cons (now : Nat) (e : Event) (rest : List Event) (ps pr inf : Nat)
    (tr : List Obs) :
    stopReached none ⟨now, e :: rest, ps, pr, inf, tr⟩ = false := rfl

theorem stopReached_nil (stop : Option Nat) (now ps pr inf : Nat) (tr : List Obs) :
    stopReached stop ⟨now, [], ps, pr, inf, tr⟩ = true := by
  cases stop <;> rfl

theorem boot_eq (cfg : Config) :
    boot cfg = ⟨0, [⟨Seconds 15, cfg.packetSize, cfg.numPackets, cfg.interval⟩], 0, 0, 0, []⟩ := by
  simp [boot, ScheduleWithContext, start, insertEvent]

/-- The run of `main` with no packet: one invocation, at 15.0 s. -/
theorem run_main_0 (p i : Nat) (stop : Option Nat) (h : stop = none ∨ stop = some (Seconds 20)) :
    Run stop (boot ⟨p, 0, i⟩) =
      ⟨Seconds 15, [], 0, 0, 0, [Obs.fire (Seconds 15) 0, Obs.close (Seconds 15)]⟩ := by
  rw [Run, pendingWork_boot, boot_eq]
  rcases h with rfl | rfl
  · rw [runLoop_step _ _ _ (stopReached_none_cons _ _ _ _ _ _ _), fireNext_zero]
    simp [runLoop]
  · rw [runLoop_step _ _ _ (by simp [stopReached_some_cons, Seconds]), fireNext_zero]
    simp [runLoop]

/-- The run of `main` with one packet and interval 2.0 s. -/
theorem run_main_1 (p : Nat) (stop : Option Nat) (h : stop = none ∨ stop = some (Seconds 20)) :
    Run stop (boot ⟨p, 1, Seconds 2⟩) =
      ⟨Seconds 17, [], 1, 0, 1,
        [Obs.fire (Seconds 15) 1, Obs.send (Seconds 15) p, Obs.schedule (Seconds 15) (Seconds 17) 0,
         Obs.fire (Seconds 17) 0, Obs.close (Seconds 17)]⟩ := by
  rw [Run, pendingWork_boot, boot_eq]
  simp only [Seconds]
  norm_num
  rcases h with rfl | rfl
  · rw [runLoop_step _ _ _ (stopReached_none_cons _ _ _ _ _ _ _), fireNext_pos]
    simp only [insertEvent]
    norm_num
    rw [runLoop_step _ _ _ (stopReached_none_cons _ _ _ _ _ _ _), fireNext_zero]
    simp [runLoop, UINT32_MOD]
  · rw [runLoop_step _ _ _ (by simp [stopReached_some_cons, Seconds]), fireNext_pos]
    simp only [insertEvent]
    norm_num
    rw [runLoop_step _ _ _ (by simp [stopReached_some_cons, Seconds]), fireNext_zero]
    simp [runLoop, UINT32_MOD]

/-- The run of `main` with two packets and interval 2.0 s. -/
theorem run_main_2 (p : Nat) (stop : Option Nat) (h : stop = none ∨ stop = some (Seconds 20)) :
    Run stop (boot ⟨p, 2, Seconds 2⟩) =
      ⟨Seconds 19, [], 2, 0, 2,
        [Obs.fire (Seconds 15) 2, Obs.send (Seconds 15) p, Obs.schedule (Seconds 15) (Seconds 17) 1,
         Obs.fire (Seconds 17) 1, Obs.send (Seconds 17) p, Obs.schedule (Seconds 17) (Seconds 19) 0,
         Obs.fire (Seconds 19) 0, Obs.close (Seconds 19)]⟩ := by
  rw [Run, pendingWork_boot, boot_eq]
  simp only [Seconds]
  norm_num
  rcases h with rfl | rfl
  · rw [runLoop_step _ _ _ (stopReached_none_cons _ _ _ _ _ _ _), fireNext_pos]
    simp only [insertEvent]
    norm_num
    rw [runLoop_step _ _ _ (stopReached_none_cons _ _ _ _ _ _ _), fireNext_pos]
    simp only [insertEvent]
    norm_num
    rw [runLoop_step _ _ _ (stopReached_none_cons _ _ _ _ _ _ _), fireNext_zero]
    simp [runLoop, UINT32_MOD]
  · rw [runLoop_step _ _ _ (by simp [stopReached_some_cons, Seconds]), fireNext_pos]
    simp only [insertEvent]
    norm_num
    rw [runLoop_step _ _ _ (by simp [stopReached_some_cons, Seconds]), fireNext_pos]
    simp only [insertEvent]
    norm_num
    rw [runLoop_step _ _ _ (by simp [stopReached_some_cons, Seconds]), fireNext_zero]
    simp [runLoop, UINT32_MOD]

/-- The run of `main` with three packets or more and interval 2.0 s: the events
at 15.0 s, 17.0 s and 19.0 s fire, the one due at 21.0 s stays in the queue. -/
theorem run_main_ge3 (p m : Nat) :
    Run (some (Seconds 20)) (boot ⟨p, m + 3, Seconds 2⟩) =
      ⟨Seconds 19, [⟨Seconds 21, p, m, Seconds 2⟩], 3, 0, 3,
        [Obs.fire (Seconds 15) (m + 3), Obs.send (Seconds 15) p,
         Obs.schedule (Seconds 15) (Seconds 17) (m + 2),
         Obs.fire (Seconds 17) (m + 2), Obs.send (Seconds 17) p,
         Obs.schedule (Seconds 17) (Seconds 19) (m + 1),
         Obs.fire (Seconds 19) (m + 1), Obs.send (Seconds 19) p,
         Obs.schedule (Seconds 19) (Seconds 21) m]⟩ := by
  rw [Run, pendingWork_boot, boot_eq]
  simp only [Seconds]
  norm_num
  rw [show m + 3 + 1 = (m + 3) + 1 from rfl,
    runLoop_step _ _ _ (by simp [stopReached_some_cons])]
  rw [show m + 3 = (m + 2) + 1 from rfl, fireNext_pos]
  simp only [insertEvent]
  norm_num
  rw [runLoop_step _ _ _ (by simp [stopReached_some_cons])]
  rw [show m + 2 = (m + 1) + 1 from rfl, fireNext_pos]
  simp only [insertEvent]
  norm_num
  rw [runLoop_step _ _ _ (by simp [stopReached_some_cons]), fireNext_pos]
  simp only [insertEvent]
  norm_num
  rw [runLoop_of_stopReached _ _ (by simp [stopReached_some_cons])]
  simp [UINT32_MOD]

theorem Deliver_frame (w : World) :
    (Deliver w).now = w.now ∧ (Deliver w).queue = w.queue ∧
    (Deliver w).packetsSent = w.packetsSent ∧ (Deliver w).trace = w.trace := by
  unfold Deliver
  split <;> simp [ReceivePacket]

theorem Deliver_iterate_frame (d : Nat) (w : World) :
    (Deliver^[d] w).now = w.now ∧ (Deliver^[d] w).queue = w.queue ∧
    (Deliver^[d] w).packetsSent = w.packetsSent ∧ (Deliver^[d] w).trace = w.trace := by
  induction d with
  | zero => simp
  | succ d ih =>
    rw [Function.iterate_succ_apply']
    obtain ⟨h1, h2, h3, h4⟩ := Deliver_frame (Deliver^[d] w)
    obtain ⟨i1, i2, i3, i4⟩ := ih
    exact ⟨h1.trans i1, h2.trans i2, h3.trans i3, h4.trans i4⟩

/-! ## The counter invariant -/

theorem CountersInv_fireNext (bound : Nat) (hb : bound < UINT32_MOD) (w : World)
    (h : CountersInv bound w) : CountersInv bound (fireNext w) := by
  obtain ⟨now, queue, ps, pr, inf, tr⟩ := w
  obtain ⟨h1, h2, h3⟩ := h
  simp only at h1 h2 h3
  cases queue with
  | nil => exact ⟨h1, h2, h3⟩
  | cons e rest =>
    obtain ⟨t, size, c, i⟩ := e
    cases c with
    | zero =>
      rw [fireNext_zero]
      refine ⟨h1, ?_, h3⟩
      simp only [pendingWork] at h2 ⊢
      omega
    | succ n =>
      rw [fireNext_pos]
      simp only [pendingWork] at h2
      have hmod : (ps + 1) % UINT32_MOD = ps + 1 := Nat.mod_eq_of_lt (by omega)
      refine ⟨?_, ?_, ?_⟩
      · simp only [hmod]; omega
      · simp only [hmod, pendingWork_insertEvent]; omega
      · simp only [hmod]; omega

theorem CountersInv_Deliver (bound : Nat) (hb : bound < UINT32_MOD) (w : World)
    (h : CountersInv bound w) : CountersInv bound (Deliver w) := by
  obtain ⟨now, queue, ps, pr, inf, tr⟩ := w
  obtain ⟨h1, h2, h3⟩ := h
  simp only at h1 h2 h3
  unfold Deliver
  split
  · next hpos =>
    simp only at hpos
    have hmod : (pr + 1) % UINT32_MOD = pr + 1 := Nat.mod_eq_of_lt (by omega)
    refine ⟨?_, ?_, ?_⟩
    · simp only [ReceivePacket, hmod]; omega
    · simpa [ReceivePacket] using h2
    · simpa [ReceivePacket] using h3
  · exact ⟨h1, h2, h3⟩

theorem CountersInv_exec (bound : Nat) (hb : bound < UINT32_MOD) (acts : List Action) :
    ∀ w, CountersInv bound w → CountersInv bound (exec w acts) := by
  induction acts with
  | nil => intro w h; exact h
  | cons a rest ih =>
    intro w h
    have hstep : CountersInv bound (step w a) := by
      cases a with
      | generate => exact CountersInv_fireNext bound hb w h
      | deliver => exact CountersInv_Deliver bound hb w h
    exact ih (step w a) hstep

theorem CountersInv_boot (cfg : Config) : CountersInv cfg.numPackets (boot cfg) := by
  rw [boot_eq]
  exact ⟨rfl, by simp [pendingWork], Nat.zero_le _⟩

theorem ReceivePacket_iterate (k : Nat) (w : World) :
    (ReceivePacket^[k] w).now = w.now ∧ (ReceivePacket^[k] w).queue = w.queue ∧
    (ReceivePacket^[k] w).packetsSent = w.packetsSent ∧
    (ReceivePacket^[k] w).inFlight = w.inFlight ∧
    (ReceivePacket^[k] w).trace = w.trace ∧
    (ReceivePacket^[k] w).packetsReceived % UINT32_MOD = (w.packetsReceived + k) % UINT32_MOD := by
  induction k with
  | zero => simp
  | succ k ih =>
    rw [Function.iterate_succ_apply']
    obtain ⟨i1, i2, i3, i4, i5, i6⟩ := ih
    refine ⟨i1, i2, i3, i4, i5, ?_⟩
    simp only [ReceivePacket, Nat.mod_mod]
    rw [Nat.add_mod, i6, ← Nat.add_mod]
    rfl

/-! ## The configured packet size does not reach the counters -/

theorem insertEvent_withSize (p : Nat) (e : Event) (q : List Event) :
    (insertEvent e q).map (Event.withSize p) =
      insertEvent (Event.withSize p e) (q.map (Event.withSize p)) := by
  induction q with
  | nil => rfl
  | cons x rest ih =>
    simp only [insertEvent, List.map_cons]
    by_cases h : x.time ≤ e.time
    · have h2 : (Event.withSize p x).time ≤ (Event.withSize p e).time := h
      rw [if_pos h, if_pos h2, List.map_cons, ih]
    · have h2 : ¬ (Event.withSize p x).time ≤ (Event.withSize p e).time := h
      rw [if_neg h, if_neg h2, List.map_cons, List.map_cons]

theorem pendingWork_withSize (p : Nat) (q : List Event) :
    pendingWork (q.map (Event.withSize p)) = pendingWork q := by
  induction q with
  | nil => rfl
  | cons x rest ih => simp only [List.map_cons, pendingWork, ih]; rfl

theorem fireNext_withSize (p : Nat) (w : World) :
    fireNext (World.withSize p w) = World.withSize p (fireNext w) := by
  obtain ⟨now, queue, ps, pr, inf, tr⟩ := w
  cases queue with
  | nil => rfl
  | cons e rest =>
    obtain ⟨t, size, c, i⟩ := e
    cases c with
    | zero =>
      simp only [World.withSize, List.map_cons, Event.withSize, fireNext_zero]
      simp [Obs.withSize]
    | succ n =>
      simp only [World.withSize, List.map_cons, Event.withSize, fireNext_pos]
      have h := insertEvent_withSize p ⟨t + i, size, n, i⟩ rest
      simp only [Event.withSize] at h
      simp [Obs.withSize, h]

theorem stopReached_withSize (p : Nat) (stop : Option Nat) (w : World) :
    stopReached stop (World.withSize p w) = stopReached stop w := by
  obtain ⟨now, queue, ps, pr, inf, tr⟩ := w
  cases queue with
  | nil => cases stop <;> rfl
  | cons e rest => cases stop <;> rfl

theorem runLoop_withSize (p : Nat) (stop : Option Nat) :
    ∀ (fuel : Nat) (w : World),
      runLoop fuel stop (World.withSize p w) = World.withSize p (runLoop fuel stop w) := by
  intro fuel
  induction fuel with
  | zero => intro w; rfl
  | succ f ih =>
    intro w
    simp only [runLoop, stopReached_withSize]
    split
    · rfl
    · rw [fireNext_withSize, ih]

theorem Run_withSize (p : Nat) (stop : Option Nat) (w : World) :
    Run stop (World.withSize p w) = World.withSize p (Run stop w) := by
  unfold Run
  rw [runLoop_withSize]
  simp only [World.withSize, pendingWork_withSize]

theorem Deliver_withSize (p : Nat) (w : World) :
    Deliver (World.withSize p w) = World.withSize p (Deliver w) := by
  unfold Deliver
  by_cases h : 0 < w.inFlight
  · have h2 : 0 < (World.withSize p w).inFlight := h
    rw [if_pos h, if_pos h2]; rfl
  · have h2 : ¬ 0 < (World.withSize p w).inFlight := h
    rw [if_neg h, if_neg h2]

theorem Deliver_iterate_withSize (p d : Nat) (w : World) :
    Deliver^[d] (World.withSize p w) = World.withSize p (Deliver^[d] w) := by
  induction d with
  | zero => rfl
  | succ d ih =>
    rw [Function.iterate_succ_apply', Function.iterate_succ_apply', ih, Deliver_withSize]

theorem mainWorld_withSize (p : Nat) (cfg : Config) (d : Nat) :
    mainWorld ⟨p, cfg.numPackets, cfg.interval⟩ d = World.withSize p (mainWorld cfg d) := by
  unfold mainWorld
  rw [← Deliver_iterate_withSize, ← Run_withSize]
  congr 2

/-- The value of `CalculateThroughput` is the unwrapped one exactly when the
32-bit product does not wrap. -/
theorem CalculateThroughput_eq_iff (w : World) :
    CalculateThroughput w = ((w.packetsReceived : ℚ) * 967 * 8) / 2000000 ↔
      w.packetsReceived * 967 < UINT32_MOD := by
  unfold CalculateThroughput
  constructor
  · intro h
    have h2 : ((w.packetsReceived * 967 % UINT32_MOD : ℕ) : ℚ) =
        ((w.packetsReceived * 967 : ℕ) : ℚ) := by
      push_cast
      push_cast at h
      linarith
    have h3 : w.packetsReceived * 967 % UINT32_MOD = w.packetsReceived * 967 :=
      Nat.cast_injective h2
    rw [← h3]
    exact Nat.mod_lt _ (by decide)
  · intro h
    rw [Nat.mod_eq_of_lt h]
    push_cast
    ring

/-! ## The claims -/

/-- C1. For every remaining count `numPackets` (a `uint32_t`), every packet
size and every interval, the generator chain of `main` run to completion with
no stop time empties the queue, performs exactly `numPackets` sends, each of
`packetSize` bytes, raises `packetsSent` from 0 to exactly `numPackets`, and
closes the socket exactly once: the trace ends with the invocation that
observes count 0 and closes, and before it lie exactly `numPackets`
invocations, `numPackets` sends and no close. -/
theorem generateTraffic_chain_sends_N_closes_once (cfg : Config)
    (hN : cfg.numPackets < UINT32_MOD) :
    (Run none (boot cfg)).queue = [] ∧
    (sends (Run none (boot cfg)).trace).length = cfg.numPackets ∧
    (∀ p ∈ sends (Run none (boot cfg)).trace, p.2 = cfg.packetSize) ∧
    (Run none (boot cfg)).packetsSent = cfg.numPackets ∧
    (closes (Run none (boot cfg)).trace).length = 1 ∧
    (invocations (Run none (boot cfg)).trace).length = cfg.numPackets + 1 ∧
    ∃ (pre : List Obs) (tc : Nat),
      (Run none (boot cfg)).trace = pre ++ [Obs.fire tc 0, Obs.close tc] ∧
      (invocations pre).length = cfg.numPackets ∧
      (sends pre).length = cfg.numPackets ∧ closes pre = [] := by
  obtain ⟨_, hq, _, _, htr, hps⟩ := Run_boot cfg
  refine ⟨hq, ?_, ?_, hps hN, ?_, ?_, ?_⟩
  · rw [htr, sends_chainTrace]; simp
  · rw [htr, sends_chainTrace]
    intro p hp
    simp only [List.mem_map] at hp
    obtain ⟨k, _, rfl⟩ := hp
    rfl
  · rw [htr, closes_chainTrace]; rfl
  · rw [htr, invocations_chainTrace]; simp
  · obtain ⟨pre, h1, h2, h3, h4⟩ :=
      chainTrace_split cfg.packetSize cfg.interval cfg.numPackets (Seconds 15)
    exact ⟨pre, _, by rw [htr, h1], h2, h3, h4⟩

/-- Witness of C1: five packets of 100 bytes, 1 s apart. -/
theorem generateTraffic_chain_sends_N_closes_once_witness :
    (Run none (boot ⟨100, 5, Seconds 1⟩)).packetsSent = 5 ∧
    (sends (Run none (boot ⟨100, 5, Seconds 1⟩)).trace).length = 5 ∧
    (closes (Run none (boot ⟨100, 5, Seconds 1⟩)).trace).length = 1 := by
  have h := generateTraffic_chain_sends_N_closes_once ⟨100, 5, Seconds 1⟩ (by decide)
  exact ⟨h.2.2.2.1, h.2.1, h.2.2.2.2.1⟩

/-- C4, as stated, fails. With numPackets = 2 and interval 2.0 s the run of
`main` holds no call to `Close` at 17.0 s: the event at 17.0 s sees count 1
and sends, and the socket is closed by the event at 19.0 s. -/
theorem close_not_in_event_at_17s :
    Obs.close (Seconds 17) ∉ (Run (some (Seconds 20)) (boot defaultConfig)).trace ∧
    closes (Run (some (Seconds 20)) (boot defaultConfig)).trace = [Seconds 19] := by
  decide

/-- C4, amended. With numPackets = 2, interval 2.0 s and the first generator
event at 15.0 s, for every packet size, the sends occur at exactly 15.0 s and
17.0 s and at no other time, and the socket is closed once, by the third
event, which fires at 19.0 s, sees count 0 and sends nothing; the run of
`main`, which stops at 20.0 s, is the whole chain. -/
theorem two_packets_send_15_17_close_19 (packetSize : Nat) :
    (Run (some (Seconds 20)) (boot ⟨packetSize, 2, Seconds 2⟩)).trace =
      [Obs.fire (Seconds 15) 2, Obs.send (Seconds 15) packetSize,
       Obs.schedule (Seconds 15) (Seconds 17) 1,
       Obs.fire (Seconds 17) 1, Obs.send (Seconds 17) packetSize,
       Obs.schedule (Seconds 17) (Seconds 19) 0,
       Obs.fire (Seconds 19) 0, Obs.close (Seconds 19)] ∧
    sends (Run (some (Seconds 20)) (boot ⟨packetSize, 2, Seconds 2⟩)).trace =
      [(Seconds 15, packetSize), (Seconds 17, packetSize)] ∧
    closes (Run (some (Seconds 20)) (boot ⟨packetSize, 2, Seconds 2⟩)).trace = [Seconds 19] ∧
    Run (some (Seconds 20)) (boot ⟨packetSize, 2, Seconds 2⟩) =
      Run none (boot ⟨packetSize, 2, Seconds 2⟩) := by
  rw [run_main_2 packetSize (some (Seconds 20)) (Or.inr rfl), run_main_2 packetSize none (Or.inl rfl)]
  simp [sends, closes]

/-- C5. With remaining count 0 an invocation of `GenerateTraffic` sends
nothing, closes the socket in that same invocation, schedules no event and
leaves both counters as they are; in `main` with numPackets = 0 the first
invocation, at 15.0 s, is the only one, it closes the socket, the queue is
empty after it and `packetsSent` is 0. -/
theorem zero_count_closes_immediately (pktSize pktInterval : Nat) (w : World) :
    sends (GenerateTraffic pktSize 0 pktInterval w).trace = sends w.trace ∧
    closes (GenerateTraffic pktSize 0 pktInterval w).trace = closes w.trace ++ [w.now] ∧
    scheduled (GenerateTraffic pktSize 0 pktInterval w).trace = scheduled w.trace ∧
    (GenerateTraffic pktSize 0 pktInterval w).queue = w.queue ∧
    (GenerateTraffic pktSize 0 pktInterval w).packetsSent = w.packetsSent ∧
    (GenerateTraffic pktSize 0 pktInterval w).packetsReceived = w.packetsReceived ∧
    fireNext (boot ⟨pktSize, 0, pktInterval⟩) =
      ⟨Seconds 15, [], 0, 0, 0, [Obs.fire (Seconds 15) 0, Obs.close (Seconds 15)]⟩ ∧
    Run none (boot ⟨pktSize, 0, pktInterval⟩) = fireNext (boot ⟨pktSize, 0, pktInterval⟩) ∧
    Run (some (Seconds 20)) (boot ⟨pktSize, 0, pktInterval⟩) =
      fireNext (boot ⟨pktSize, 0, pktInterval⟩) := by
  refine ⟨?_, ?_, ?_, ?_, ?_, ?_, ?_, ?_, ?_⟩
  · simp [GenerateTraffic, Close, sends_append, sends]
  · simp [GenerateTraffic, Close, closes_append, closes]
  · simp [GenerateTraffic, Close, scheduled_append, scheduled]
  · simp [GenerateTraffic, Close]
  · simp [GenerateTraffic, Close]
  · simp [GenerateTraffic, Close]
  · rw [boot_eq, fireNext_zero]; rfl
  · rw [run_main_0 _ _ none (Or.inl rfl), boot_eq, fireNext_zero]; rfl
  · rw [run_main_0 _ _ (some (Seconds 20)) (Or.inr rfl), boot_eq, fireNext_zero]; rfl

/-- C8. For every remaining count `numPackets` the generator chain terminates:
the loop ends by itself, with an empty queue, after exactly `numPackets + 1`
invocations, however much fuel it is given beyond that; the k-th invocation
(k from 0) sees the count `numPackets - k`; an invocation with a positive
count enqueues exactly one successor, with the count one lower, and an
invocation with count 0 enqueues none; so the generator enqueues exactly
`numPackets` events. -/
theorem generateTraffic_chain_terminates (cfg : Config) :
    stopReached none (Run none (boot cfg)) = true ∧
    (Run none (boot cfg)).queue = [] ∧
    (∀ fuel, cfg.numPackets + 1 ≤ fuel → runLoop fuel none (boot cfg) = Run none (boot cfg)) ∧
    invocations (Run none (boot cfg)).trace =
      (List.range (cfg.numPackets + 1)).map (fun k => cfg.numPackets - k) ∧
    (invocations (Run none (boot cfg)).trace).length = cfg.numPackets + 1 ∧
    scheduled (Run none (boot cfg)).trace =
      (List.range cfg.numPackets).map
        (fun k => (Seconds 15 + (k + 1) * cfg.interval, cfg.numPackets - 1 - k)) ∧
    (scheduled (Run none (boot cfg)).trace).length = cfg.numPackets ∧
    (∀ (w : World) (pktSize pktCount pktInterval : Nat), 0 < pktCount →
      (GenerateTraffic pktSize pktCount pktInterval w).queue =
        insertEvent ⟨w.now + pktInterval, pktSize, pktCount - 1, pktInterval⟩ w.queue ∧
      scheduled (GenerateTraffic pktSize pktCount pktInterval w).trace =
        scheduled w.trace ++ [(w.now + pktInterval, pktCount - 1)]) ∧
    (∀ (w : World) (pktSize pktInterval : Nat),
      (GenerateTraffic pktSize 0 pktInterval w).queue = w.queue ∧
      scheduled (GenerateTraffic pktSize 0 pktInterval w).trace = scheduled w.trace) := by
  obtain ⟨_, hq, _, _, htr, _⟩ := Run_boot cfg
  refine ⟨Run_halts none (boot cfg), hq, ?_, ?_, ?_, ?_, ?_, ?_, ?_⟩
  · intro fuel hf
    exact runLoop_eq_Run none fuel (boot cfg) (by rw [pendingWork_boot]; exact hf)
  · rw [htr, invocations_chainTrace]
  · rw [htr, invocations_chainTrace]; simp
  · rw [htr, scheduled_chainTrace]
  · rw [htr, scheduled_chainTrace]; simp
  · intro w pktSize pktCount pktInterval hpos
    have hgt : pktCount > 0 := hpos
    simp [GenerateTraffic, Schedule, Send, hgt, scheduled_append, scheduled]
  · intro w pktSize pktInterval
    simp [GenerateTraffic, Close, scheduled_append, scheduled]

/-- Witness of C8: three packets; fuel 10 and fuel 4 give the same run, and an
invocation with count 3 enqueues the successor with count 2. -/
theorem generateTraffic_chain_terminates_witness :
    runLoop 10 none (boot ⟨967, 3, Seconds 2⟩) = Run none (boot ⟨967, 3, Seconds 2⟩) ∧
    invocations (Run none (boot ⟨967, 3, Seconds 2⟩)).trace = [3, 2, 1, 0] ∧
    (GenerateTraffic 967 3 (Seconds 2) start).queue = [⟨Seconds 2, 967, 2, Seconds 2⟩] := by
  have h := generateTraffic_chain_terminates ⟨967, 3, Seconds 2⟩
  refine ⟨h.2.2.1 10 (by decide), ?_, ?_⟩
  · rw [h.2.2.2.1]; decide
  · rw [(h.2.2.2.2.2.2.2.1 start 967 3 (Seconds 2) (by decide)).1]; decide

/-- C9. In the run of `main` (first generator event at 15.0 s, stop at 20.0 s,
interval 2.0 s), for every numPackets, every packet size and whatever the
network delivers, `packetsSent` is min(numPackets, 3) when `Run` returns, and
so is the number of sends; the socket is closed during the run exactly when
numPackets is at most 2; with 3 packets or more the loop ends on the stop
time, with the event due at 21.0 s still pending. -/
theorem main_run_sends_min_N_3 (packetSize numPackets delivered : Nat) :
    (mainWorld ⟨packetSize, numPackets, Seconds 2⟩ delivered).packetsSent = min numPackets 3 ∧
    (sends (mainWorld ⟨packetSize, numPackets, Seconds 2⟩ delivered).trace).length =
      min numPackets 3 ∧
    (closes (mainWorld ⟨packetSize, numPackets, Seconds 2⟩ delivered).trace ≠ [] ↔
      numPackets ≤ 2) ∧
    (3 ≤ numPackets →
      (mainWorld ⟨packetSize, numPackets, Seconds 2⟩ delivered).queue =
        [⟨Seconds 21, packetSize, numPackets - 3, Seconds 2⟩]) ∧
    (numPackets ≤ 2 → (mainWorld ⟨packetSize, numPackets, Seconds 2⟩ delivered).queue = []) := by
  obtain ⟨_, hq, hps, htr⟩ := Deliver_iterate_frame delivered
    (Run (some (Seconds 20)) (boot ⟨packetSize, numPackets, Seconds 2⟩))
  unfold mainWorld
  rw [hq, hps, htr]
  match numPackets with
  | 0 =>
    rw [run_main_0 _ _ (some (Seconds 20)) (Or.inr rfl)]
    simp [sends, closes]
  | 1 =>
    rw [run_main_1 _ (some (Seconds 20)) (Or.inr rfl)]
    simp [sends, closes]
  | 2 =>
    rw [run_main_2 _ (some (Seconds 20)) (Or.inr rfl)]
    simp [sends, closes]
  | m + 3 =>
    rw [run_main_ge3]
    simp [sends, closes]

/-- Witness of C9: seven packets are cut off after three, two are all sent. -/
theorem main_run_sends_min_N_3_witness :
    (mainWorld ⟨967, 7, Seconds 2⟩ 0).queue = [⟨Seconds 21, 967, 4, Seconds 2⟩] ∧
    (mainWorld ⟨967, 2, Seconds 2⟩ 0).queue = [] :=
  ⟨(main_run_sends_min_N_3 967 7 0).2.2.2.1 (by decide),
   (main_run_sends_min_N_3 967 2 0).2.2.2.2 (by decide)⟩

/-- C6. In every state reachable from the state in which `main` starts the
run (both counters 0, numPackets a `uint32_t`) by steps that are either one
invocation of `GenerateTraffic` by the simulator or one delivery of a packet
that was sent and not yet delivered, `packetsReceived` is at most
`packetsSent`. -/
theorem packetsReceived_le_packetsSent (cfg : Config) (hN : cfg.numPackets < UINT32_MOD)
    (acts : List Action) :
    (exec (boot cfg) acts).packetsReceived ≤ (exec (boot cfg) acts).packetsSent := by
  have h := CountersInv_exec cfg.numPackets hN acts (boot cfg) (CountersInv_boot cfg)
  have h1 := h.1
  omega

/-- Witness of C6: a delivery is tried before anything was sent, then two
packets are sent and one is delivered. -/
theorem packetsReceived_le_packetsSent_witness :
    (exec (boot defaultConfig) [Action.deliver, Action.generate, Action.deliver,
        Action.generate, Action.deliver, Action.deliver, Action.generate]).packetsReceived ≤
      (exec (boot defaultConfig) [Action.deliver, Action.generate, Action.deliver,
        Action.generate, Action.deliver, Action.deliver, Action.generate]).packetsSent :=
  packetsReceived_le_packetsSent defaultConfig (by decide) _

/-- C7. One invocation of the delivery sink `ReceivePacket` leaves
`packetsSent`, the queue, the clock, the generator's trace and the packets in
flight unchanged, in every state, and so do k invocations. It increases
`packetsReceived` by exactly 1, and k invocations by exactly k, in every state
the sink can be invoked in: in every state reachable from the start of `main`
(numPackets a `uint32_t`) by generator invocations and deliveries, k
deliveries of packets in flight raise `packetsReceived` by exactly k, the
counter never reaching the end of its 32-bit range; the same holds in any
state whose counter stays below `2 ^ 32`. -/
theorem receivePacket_increments_by_one (cfg : Config) (hN : cfg.numPackets < UINT32_MOD)
    (acts : List Action) (w : World) (k : Nat) :
    (ReceivePacket w).packetsSent = w.packetsSent ∧
    (ReceivePacket w).queue = w.queue ∧ (ReceivePacket w).now = w.now ∧
    (ReceivePacket w).trace = w.trace ∧ (ReceivePacket w).inFlight = w.inFlight ∧
    (ReceivePacket^[k] w).packetsSent = w.packetsSent ∧
    (ReceivePacket^[k] w).queue = w.queue ∧ (ReceivePacket^[k] w).now = w.now ∧
    (ReceivePacket^[k] w).trace = w.trace ∧ (ReceivePacket^[k] w).inFlight = w.inFlight ∧
    (w.packetsReceived + 1 < UINT32_MOD →
      (ReceivePacket w).packetsReceived = w.packetsReceived + 1) ∧
    (w.packetsReceived + k < UINT32_MOD →
      (ReceivePacket^[k] w).packetsReceived = w.packetsReceived + k) ∧
    (0 < (exec (boot cfg) acts).inFlight →
      (ReceivePacket (exec (boot cfg) acts)).packetsReceived =
        (exec (boot cfg) acts).packetsReceived + 1) ∧
    (k ≤ (exec (boot cfg) acts).inFlight →
      (ReceivePacket^[k] (exec (boot cfg) acts)).packetsReceived =
        (exec (boot cfg) acts).packetsReceived + k) := by
  have hiter : ∀ (j : Nat) (v : World), v.packetsReceived + j < UINT32_MOD →
      (ReceivePacket^[j] v).packetsReceived = v.packetsReceived + j := by
    intro j v h
    obtain ⟨_, _, _, _, _, i6⟩ := ReceivePacket_iterate j v
    have hlt : (ReceivePacket^[j] v).packetsReceived < UINT32_MOD := by
      cases j with
      | zero =>
        have h0 : v.packetsReceived < UINT32_MOD := by omega
        simpa using h0
      | succ m =>
        rw [Function.iterate_succ_apply']
        exact Nat.mod_lt _ (by decide)
    rw [← Nat.mod_eq_of_lt h, ← i6, Nat.mod_eq_of_lt hlt]
  obtain ⟨i1, i2, i3, i4, i5, _⟩ := ReceivePacket_iterate k w
  obtain ⟨c1, _, c3⟩ := CountersInv_exec cfg.numPackets hN acts (boot cfg) (CountersInv_boot cfg)
  refine ⟨rfl, rfl, rfl, rfl, rfl, i3, i2, i1, i5, i4, ?_, hiter k w, ?_, ?_⟩
  · intro h
    exact Nat.mod_eq_of_lt h
  · intro h
    exact Nat.mod_eq_of_lt (by omega)
  · intro h
    exact hiter k _ (by omega)

/-- Witness of C7: after both packets of the default scenario were sent, two
deliveries raise `packetsReceived` by 2; and three invocations from 5. -/
theorem receivePacket_increments_by_one_witness :
    (ReceivePacket^[2]
        (exec (boot defaultConfig) [Action.generate, Action.generate])).packetsReceived =
      (exec (boot defaultConfig) [Action.generate, Action.generate]).packetsReceived + 2 ∧
    (ReceivePacket^[3] ⟨0, [], 9, 5, 0, []⟩).packetsReceived = 5 + 3 :=
  ⟨(receivePacket_increments_by_one defaultConfig (by decide)
      [Action.generate, Action.generate] start 2).2.2.2.2.2.2.2.2.2.2.2.2.2 (by decide),
   (receivePacket_increments_by_one defaultConfig (by decide) [] ⟨0, [], 9, 5, 0, []⟩
      3).2.2.2.2.2.2.2.2.2.2.2.1 (by decide)⟩

/-- C2, as stated, fails. Configured with packetSize = 100, one packet sent and
delivered, the program computes 967 * 8 / 2000000 = 0.003868; the formula of
the specification gives 0.00016 for the window 20.0 - 15.0 = 5.0 s and 0.0004
for a window of 2.0 s. -/
theorem throughput_ignores_configured_packetSize :
    (mainWorld ⟨100, 1, Seconds 2⟩ 1).packetsReceived = 1 ∧
    main ⟨100, 1, Seconds 2⟩ 1 = 3868 / 1000000 ∧
    main ⟨100, 1, Seconds 2⟩ 1 ≠ specThroughput 1 100 5 ∧
    main ⟨100, 1, Seconds 2⟩ 1 ≠ specThroughput 1 100 2 := by
  have hr : (mainWorld ⟨100, 1, Seconds 2⟩ 1).packetsReceived = 1 := by decide
  refine ⟨hr, ?_, ?_, ?_⟩ <;>
    simp only [main, CalculateThroughput, hr, specThroughput, UINT32_MOD] <;> norm_num

/-- C2, amended. For every received-packet count the throughput
`CalculateThroughput` computes is `((r * 967) mod 2 ^ 32) * 8 / (2.0 * 1000000)`:
the packet size is the literal 967 and the window the literal 2.0 s. What
`main` reports is this value for the final counter, it does not depend on the
configured packetSize, and it is the formula of the specification taken at
packet size 967 and window 2.0 s as long as `r * 967` fits 32 bits. -/
theorem throughput_uses_967_bytes_and_2_seconds (w : World) (cfg : Config) (delivered : Nat) :
    CalculateThroughput w =
      (((w.packetsReceived * 967 % UINT32_MOD : ℕ) : ℚ) * 8) / (2 * 1000000) ∧
    (w.packetsReceived * 967 < UINT32_MOD →
      CalculateThroughput w = specThroughput w.packetsReceived 967 2) ∧
    main cfg delivered = CalculateThroughput (mainWorld cfg delivered) ∧
    (∀ p, main ⟨p, cfg.numPackets, cfg.interval⟩ delivered = main cfg delivered) := by
  refine ⟨rfl, ?_, rfl, ?_⟩
  · intro h
    rw [(CalculateThroughput_eq_iff w).mpr h, specThroughput]
    norm_num
  · intro p
    unfold main CalculateThroughput
    rw [mainWorld_withSize]
    rfl

/-- Witness of C2, amended: three packets received. -/
theorem throughput_uses_967_bytes_and_2_seconds_witness :
    CalculateThroughput ⟨0, [], 3, 3, 0, []⟩ = specThroughput 3 967 2 :=
  (throughput_uses_967_bytes_and_2_seconds ⟨0, [], 3, 3, 0, []⟩ defaultConfig 0).2.1 (by decide)

/-- C3, as stated, fails. In the default scenario with both packets delivered
the program does not report (2 * 967 * 8) / (5.0 * 1000000) = 0.0030944. -/
theorem default_throughput_is_not_over_5_seconds :
    (mainWorld defaultConfig 2).packetsReceived = 2 ∧
    specThroughput 2 967 5 = 30944 / 10000000 ∧
    main defaultConfig 2 ≠ specThroughput 2 967 5 := by
  have hr : (mainWorld defaultConfig 2).packetsReceived = 2 := by decide
  refine ⟨hr, ?_, ?_⟩ <;>
    simp only [main, CalculateThroughput, hr, specThroughput, UINT32_MOD] <;> norm_num

/-- C3, amended. In the default scenario (numPackets = 2, interval 2.0 s,
packetSize = 967, first send at 15.0 s, stop at 20.0 s), when both packets are
delivered, the throughput the program reports is
(2 * 967 * 8) / (2.0 * 1000000) = 0.007736 Mbps: the divisor is the literal
2.0 s of `CalculateThroughput`. -/
theorem default_throughput_is_0_007736 :
    (mainWorld defaultConfig 2).packetsSent = 2 ∧
    (mainWorld defaultConfig 2).packetsReceived = 2 ∧
    main defaultConfig 2 = 7736 / 1000000 ∧
    main defaultConfig 2 = specThroughput 2 967 2 := by
  have hr : (mainWorld defaultConfig 2).packetsReceived = 2 := by decide
  refine ⟨by decide, hr, ?_, ?_⟩ <;>
    simp only [main, CalculateThroughput, hr, specThroughput, UINT32_MOD] <;> norm_num

/-- C10. `CalculateThroughput` multiplies `packetsReceived` by 967 in 32-bit
unsigned arithmetic, so for every `packetsReceived` its value is
`((packetsReceived * 967) mod 2 ^ 32) * 8 / 2000000`; this is the unwrapped
value `packetsReceived * 967 * 8 / 2000000` exactly when
`packetsReceived ≤ 4441538`. -/
theorem calculateThroughput_wraps_above_4441538 (w : World) :
    CalculateThroughput w =
      (((w.packetsReceived * 967 % 2 ^ 32 : ℕ) : ℚ) * 8) / 2000000 ∧
    (CalculateThroughput w = ((w.packetsReceived : ℚ) * 967 * 8) / 2000000 ↔
      w.packetsReceived ≤ 4441538) := by
  refine ⟨?_, ?_⟩
  · unfold CalculateThroughput UINT32_MOD
    norm_num
  · rw [CalculateThroughput_eq_iff]
    unfold UINT32_MOD
    omega

end OlsrHna
